import Mathlib

/-!
Verification of the response-normalization and request-handling logic of the
hospital-ai backend (`server/app/main.py`).

Python strings are modelled as `List Char`, bytes as `List Nat`, raised
exceptions as the `Except.error` branch of `Except`.  The JSON values produced
by `json.loads` are modelled by the inductive type `Json`, with objects as
insertion-ordered association lists (Python `dict` semantics: first occurrence
keeps its position, a duplicate key overwrites the value).
-/

namespace HospitalAI

/-! ## Python string primitives -/

/-- Whitespace characters removed by Python `str.strip()` (the ASCII ones plus
`\x85` and `\xa0`; exotic Unicode space classes are not modelled). -/
def isPyWS (c : Char) : Bool :=
  c == ' ' || c == '\t' || c == '\n' || c == '\r' || c == Char.ofNat 11 ||
  c == Char.ofNat 12 || c == Char.ofNat 28 || c == Char.ofNat 29 ||
  c == Char.ofNat 30 || c == Char.ofNat 31 || c == Char.ofNat 133 ||
  c == Char.ofNat 160

/-- Python `str.strip(chars)`: remove leading and trailing characters
satisfying `p`. -/
def pyStripWhile (p : Char → Bool) (s : List Char) : List Char :=
  List.rdropWhile p (List.dropWhile p s)

/-- Python `str.strip()` (no argument): strip whitespace from both ends. -/
def pyStrip (s : List Char) : List Char := pyStripWhile isPyWS s

/-- The backtick character. -/
def BTICK : Char := Char.ofNat 96

/-- The opening-brace character. -/
def LBRACE : Char := Char.ofNat 123

/-- The closing-brace character. -/
def RBRACE : Char := Char.ofNat 125

/-- Python `s.strip("`")`: remove leading and trailing backticks. -/
def stripBackticks (s : List Char) : List Char :=
  pyStripWhile (fun c => c == BTICK) s

/-- Python `s.startswith("```")`. -/
def startsWithFence : List Char → Bool
  | c1 :: c2 :: c3 :: _ => c1 == BTICK && c2 == BTICK && c3 == BTICK
  | _ => false

/-- Python `"\n" in s`. -/
def containsNL (s : List Char) : Bool := s.any (fun c => c == '\n')

/-- Python `s.split("\n", 1)[1]`: everything after the first line break
(callers guard on `containsNL`). -/
def afterFirstNL (s : List Char) : List Char :=
  (s.dropWhile (fun c => c != '\n')).tail

/-- Python `s.find(c)` for a single character: index of the first occurrence,
`none` standing for `-1`. -/
def findIdxChar (c : Char) (s : List Char) : Option Nat :=
  if (s.takeWhile (fun x => x != c)).length = s.length then none
  else some (s.takeWhile (fun x => x != c)).length

/-- Python `s.rfind(c)` for a single character: index of the last occurrence,
`none` standing for `-1`. -/
def rfindIdxChar (c : Char) (s : List Char) : Option Nat :=
  match findIdxChar c s.reverse with
  | none => none
  | some i => some (s.length - 1 - i)

/-! ## JSON values and a model of `json.loads`

`json.loads` is Python standard-library code, not part of this repository;
it is modelled here as a strict RFC 8259 recursive-descent parser.  Numbers
keep their source lexeme.  Parse failure (a raised `JSONDecodeError`) is
`none`. -/

inductive Json where
  | null
  | bool (b : Bool)
  | num (lexeme : List Char)
  | str (cs : List Char)
  | arr (elems : List Json)
  | obj (fields : List (List Char × Json))

/-- JSON inter-token whitespace. -/
def isJsonWS (c : Char) : Bool :=
  c == ' ' || c == '\t' || c == '\n' || c == '\r'

/-- Skip JSON whitespace. -/
def skipWS (s : List Char) : List Char := s.dropWhile isJsonWS

/-- Value of one hexadecimal digit. -/
def hexVal (c : Char) : Option Nat :=
  if '0' ≤ c ∧ c ≤ '9' then some (c.toNat - '0'.toNat)
  else if 'a' ≤ c ∧ c ≤ 'f' then some (c.toNat - 'a'.toNat + 10)
  else if 'A' ≤ c ∧ c ≤ 'F' then some (c.toNat - 'A'.toNat + 10)
  else none

/-- Single-character JSON string escapes. -/
def escChar (e : Char) : Option Char :=
  if e = '"' then some '"'
  else if e = '\\' then some '\\'
  else if e = '/' then some '/'
  else if e = 'b' then some (Char.ofNat 8)
  else if e = 'f' then some (Char.ofNat 12)
  else if e = 'n' then some '\n'
  else if e = 'r' then some '\r'
  else if e = 't' then some '\t'
  else none

/-- Parse the body of a JSON string after the opening quote; returns the
decoded characters and the remainder after the closing quote. -/
def parseStr : Nat → List Char → Option (List Char × List Char)
  | 0, _ => none
  | _ + 1, [] => none
  | f + 1, c :: r =>
    if c = '"' then some ([], r)
    else if c = '\\' then
      match r with
      | [] => none
      | e :: r2 =>
        if e = 'u' then
          match r2 with
          | h1 :: h2 :: h3 :: h4 :: r3 =>
            match hexVal h1, hexVal h2, hexVal h3, hexVal h4 with
            | some a, some b, some c2, some d =>
              match parseStr f r3 with
              | some (cs, rest) =>
                  some (Char.ofNat (((a * 16 + b) * 16 + c2) * 16 + d) :: cs, rest)
              | none => none
            | _, _, _, _ => none
          | _ => none
        else
          match escChar e with
          | none => none
          | some ec =>
            match parseStr f r2 with
            | some (cs, rest) => some (ec :: cs, rest)
            | none => none
    else if c.toNat < 32 then none
    else
      match parseStr f r with
      | some (cs, rest) => some (c :: cs, rest)
      | none => none

/-- Parse the fractional part of a JSON number (possibly empty). -/
def parseFrac (s : List Char) : Option (List Char × List Char) :=
  match s with
  | '.' :: r =>
    let ds := r.takeWhile Char.isDigit
    if ds.isEmpty then none else some ('.' :: ds, r.dropWhile Char.isDigit)
  | _ => some ([], s)

/-- Parse the exponent part of a JSON number (possibly empty). -/
def parseExp (s : List Char) : Option (List Char × List Char) :=
  match s with
  | e :: r =>
    if e = 'e' ∨ e = 'E' then
      let sr : List Char × List Char :=
        match r with
        | '+' :: r2 => (['+'], r2)
        | '-' :: r2 => (['-'], r2)
        | _ => ([], r)
      let ds := sr.2.takeWhile Char.isDigit
      if ds.isEmpty then none
      else some (e :: sr.1 ++ ds, sr.2.dropWhile Char.isDigit)
    else some ([], e :: r)
  | [] => some ([], [])

/-- Parse a JSON number, returning its lexeme and the remainder. -/
def parseNum (s : List Char) : Option (List Char × List Char) :=
  let sr : List Char × List Char :=
    match s with
    | '-' :: r => (['-'], r)
    | _ => ([], s)
  match sr.2 with
  | '0' :: r =>
    match parseFrac r with
    | none => none
    | some (fr, r2) =>
      match parseExp r2 with
      | none => none
      | some (ex, r3) => some (sr.1 ++ '0' :: fr ++ ex, r3)
  | c :: r =>
    if c.isDigit then
      let ds := r.takeWhile Char.isDigit
      match parseFrac (r.dropWhile Char.isDigit) with
      | none => none
      | some (fr, r2) =>
        match parseExp r2 with
        | none => none
        | some (ex, r3) => some (sr.1 ++ c :: ds ++ fr ++ ex, r3)
    else none
  | [] => none

/-- Parse the literal `true` after its leading `t`. -/
def parseTrue (r : List Char) : Option (Json × List Char) :=
  match r with
  | 'r' :: 'u' :: 'e' :: r2 => some (Json.bool true, r2)
  | _ => none

/-- Parse the literal `false` after its leading `f`. -/
def parseFalse (r : List Char) : Option (Json × List Char) :=
  match r with
  | 'a' :: 'l' :: 's' :: 'e' :: r2 => some (Json.bool false, r2)
  | _ => none

/-- Parse the literal `null` after its leading `n`. -/
def parseNull (r : List Char) : Option (Json × List Char) :=
  match r with
  | 'u' :: 'l' :: 'l' :: r2 => some (Json.null, r2)
  | _ => none

/-- Insert a binding with Python `dict` semantics: an existing key keeps its
position and receives the new value, a new key is appended. -/
def dictInsert (kvs : List (List Char × Json)) (k : List Char) (v : Json) :
    List (List Char × Json) :=
  match kvs with
  | [] => [(k, v)]
  | (k0, v0) :: rest =>
    if k0 = k then (k0, v) :: rest else (k0, v0) :: dictInsert rest k v

/-- Build a Python `dict` from the members in source order. -/
def buildDict (ps : List (List Char × Json)) : List (List Char × Json) :=
  ps.foldl (fun acc p => dictInsert acc p.1 p.2) []

mutual

/-- Parse one JSON value; dispatches on the first (non-whitespace already
skipped) character. -/
def parseValue : Nat → List Char → Option (Json × List Char)
  | 0, _ => none
  | _ + 1, [] => none
  | f + 1, c :: r =>
    if c = LBRACE then
      match parseMembers0 f (skipWS r) with
      | some (ps, rest) => some (Json.obj (buildDict ps), rest)
      | none => none
    else if c = '[' then
      match parseElems0 f (skipWS r) with
      | some (vs, rest) => some (Json.arr vs, rest)
      | none => none
    else if c = '"' then
      match parseStr (r.length + 1) r with
      | some (cs, rest) => some (Json.str cs, rest)
      | none => none
    else if c = 't' then parseTrue r
    else if c = 'f' then parseFalse r
    else if c = 'n' then parseNull r
    else if c = '-' ∨ c.isDigit then
      match parseNum (c :: r) with
      | some (lx, rest) => some (Json.num lx, rest)
      | none => none
    else none

/-- Parse the members of an object right after the opening brace (whitespace
already skipped): either an immediate closing brace or a member list. -/
def parseMembers0 : Nat → List Char → Option (List (List Char × Json) × List Char)
  | 0, _ => none
  | f + 1, s =>
    match s with
    | c :: r => if c = RBRACE then some ([], r) else parseMembers f (c :: r)
    | [] => none

/-- Parse a non-empty member list of a JSON object. -/
def parseMembers : Nat → List Char → Option (List (List Char × Json) × List Char)
  | 0, _ => none
  | f + 1, s =>
    match s with
    | '"' :: r =>
      match parseStr (r.length + 1) r with
      | some (k, r1) =>
        match skipWS r1 with
        | ':' :: r2 =>
          match parseValue f (skipWS r2) with
          | some (v, r3) =>
            match skipWS r3 with
            | ',' :: r4 =>
              match parseMembers f (skipWS r4) with
              | some (ps, rest) => some ((k, v) :: ps, rest)
              | none => none
            | c :: r4 => if c = RBRACE then some ([(k, v)], r4) else none
            | [] => none
          | none => none
        | _ => none
      | none => none
    | _ => none

/-- Parse the elements of an array right after the opening bracket (whitespace
already skipped): either an immediate closing bracket or an element list. -/
def parseElems0 : Nat → List Char → Option (List Json × List Char)
  | 0, _ => none
  | f + 1, s =>
    match s with
    | ']' :: r => some ([], r)
    | _ => parseElems f s

/-- Parse a non-empty element list of a JSON array. -/
def parseElems : Nat → List Char → Option (List Json × List Char)
  | 0, _ => none
  | f + 1, s =>
    match parseValue f s with
    | some (v, r) =>
      match skipWS r with
      | ',' :: r2 =>
        match parseElems f (skipWS r2) with
        | some (vs, rest) => some (v :: vs, rest)
        | none => none
      | ']' :: r2 => some ([v], r2)
      | _ => none
    | none => none

end

/-- Model of Python `json.loads`: skip surrounding whitespace, parse one value,
and require the whole input to be consumed.  `none` models a raised
`JSONDecodeError`. -/
def json_loads (s : List Char) : Option Json :=
  match parseValue (4 * s.length + 8) (skipWS s) with
  | some (v, rest) => if skipWS rest = [] then some v else none
  | none => none

/-! ## The response normalizer (`extract_json` and lines 128-155 of
`medicine_analyze`) -/

/-- Python truthiness of a parsed JSON value (`bool(data)`): `None`, `False`,
empty containers, the empty string and numeric zero are falsy.  A numeric
literal is falsy when its mantissa digits are all zero (float underflow of
tiny non-zero literals is not modelled; the pipeline only ever tests objects). -/
def pyTruthy : Json → Bool
  | .null => false
  | .bool b => b
  | .num lx =>
    !(((lx.takeWhile (fun c => c != 'e' && c != 'E')).filter Char.isDigit).all
        (fun c => c == '0'))
  | .str cs => !cs.isEmpty
  | .arr vs => !vs.isEmpty
  | .obj kvs => !kvs.isEmpty

/-- The de-fencing step of `extract_json` (lines 132-135): when the stripped
text begins with a triple-backtick fence, strip all leading and trailing
backticks, then drop the first line whenever the result contains a line
break anywhere. -/
def deFence (s : List Char) : List Char :=
  if startsWithFence s then
    if containsNL (stripBackticks s) then afterFirstNL (stripBackticks s)
    else stripBackticks s
  else s

/-- The brace-slicing step of `extract_json` (lines 136-139): slice from the
first opening brace through the last closing brace, provided both exist and
the latter comes strictly after the former. -/
def braceSlice (t : List Char) : Option (List Char) :=
  match findIdxChar LBRACE t, rfindIdxChar RBRACE t with
  | some st, some en =>
    if st < en then some ((t.drop st).take (en + 1 - st)) else none
  | _, _ => none

/-- The substring `extract_json` submits to the JSON parser (lines 131-139):
strip, de-fence, then brace-slice. -/
def extractCandidate (s : List Char) : Option (List Char) :=
  braceSlice (deFence (pyStrip s))

/-- The `extract_json` helper (lines 130-140): `Except.error` models the
`json.loads` exception propagating to the caller, `Except.ok none` the
explicit `return None`. -/
def extract_json (s : List Char) : Except Unit (Option Json) :=
  match extractCandidate s with
  | none => Except.ok none
  | some cand =>
    match json_loads cand with
    | some v => Except.ok (some v)
    | none => Except.error ()

/-- The 12 expected `MedicineRecord` fields (line 151). -/
def EXPECTED_KEYS : List (List Char) :=
  ["name", "generic", "strength", "form", "indications", "contraindications",
   "side_effects", "warnings", "interactions", "pregnancy", "schedule",
   "note"].map String.toList

/-- First-match association-list lookup (Python `k in data` / `data[k]`). -/
def lookupKey : List (List Char × Json) → List Char → Option Json
  | [], _ => none
  | (k0, v) :: rest, k => if k0 = k then some v else lookupKey rest k

/-- Python `data.setdefault(k, "")`: append an empty-string binding when the
key is missing, leave the dict unchanged otherwise. -/
def setdefaultEmpty (kvs : List (List Char × Json)) (k : List Char) :
    List (List Char × Json) :=
  match lookupKey kvs k with
  | some _ => kvs
  | none => kvs ++ [(k, Json.str [])]

/-- The back-filling loop of lines 152-153: `setdefault` every expected key. -/
def fillDefaults (kvs : List (List Char × Json)) : List (List Char × Json) :=
  EXPECTED_KEYS.foldl setdefaultEmpty kvs

/-- The endpoint's tagged normalization result: `{"parsed": True, "data": data}`
or `{"raw": raw, "parsed": False}`. -/
inductive NormResult where
  | parsedTrue (data : List (List Char × Json))
  | parsedFalse (raw : List Char)

/-- The normalization step of `medicine_analyze` (lines 128-155) applied to the
model reply text: strip it, attempt extraction (the surrounding `try/except`
turns a `json.loads` exception into `data = None`), report `parsed:false` for
`None` or a falsy value, otherwise back-fill the expected fields.
`Except.error` models an exception escaping to the endpoint's outer handler
(`data.setdefault` on a non-dict), which the safety theorem rules out. -/
def normalize (content : List Char) : Except Unit NormResult :=
  match (match extract_json (pyStrip content) with
         | Except.ok d => d
         | Except.error _ => none) with
  | none => Except.ok (NormResult.parsedFalse (pyStrip content))
  | some d =>
    if pyTruthy d then
      match d with
      | Json.obj kvs => Except.ok (NormResult.parsedTrue (fillDefaults kvs))
      | _ => Except.error ()
    else Except.ok (NormResult.parsedFalse (pyStrip content))

/-! ## The `/chat` endpoint (lines 50-73) -/

/-- The JSON body returned by `chat_endpoint`: `{"answer": ...}` or
`{"error": ...}`. -/
inductive ChatReply where
  | answer (text : List Char)
  | error (msg : List Char)

/-- The `/chat` handler given the outcome of the inference-adapter call
(`Except.ok` the reply text, `Except.error` a raised exception's message).
The outer `Except` layer of the result models an exception escaping the
handler (an HTTP error status): the `try/except` returns a 200 payload in
both cases, so it is always `Except.ok`. -/
def chat_endpoint (adapter : Except (List Char) (List Char)) :
    Except (List Char) ChatReply :=
  match adapter with
  | Except.ok text => Except.ok (ChatReply.answer text)
  | Except.error e => Except.ok (ChatReply.error e)

/-! ## The upload-decoding heuristic of `medicine_analyze` (lines 102-116) -/

/-- Strict UTF-8 decoding of one byte sequence, fuel-recursive; rejects
continuation errors, overlong forms, surrogates and out-of-range code points,
like Python `bytes.decode('utf-8')`. -/
def utf8Go : Nat → List Nat → Option (List Char)
  | 0, [] => some []
  | 0, _ :: _ => none
  | _ + 1, [] => some []
  | f + 1, b :: r =>
    if b < 128 then
      match utf8Go f r with
      | some cs => some (Char.ofNat b :: cs)
      | none => none
    else if 194 ≤ b ∧ b ≤ 223 then
      match r with
      | c1 :: r2 =>
        if 128 ≤ c1 ∧ c1 ≤ 191 then
          match utf8Go f r2 with
          | some cs => some (Char.ofNat ((b - 192) * 64 + (c1 - 128)) :: cs)
          | none => none
        else none
      | [] => none
    else if 224 ≤ b ∧ b ≤ 239 then
      match r with
      | c1 :: c2 :: r2 =>
        let lo1 : Nat := if b = 224 then 160 else if b = 237 then 128 else 128
        let hi1 : Nat := if b = 224 then 191 else if b = 237 then 159 else 191
        if lo1 ≤ c1 ∧ c1 ≤ hi1 ∧ 128 ≤ c2 ∧ c2 ≤ 191 then
          match utf8Go f r2 with
          | some cs =>
            some (Char.ofNat (((b - 224) * 64 + (c1 - 128)) * 64 + (c2 - 128)) :: cs)
          | none => none
        else none
      | _ => none
    else if 240 ≤ b ∧ b ≤ 244 then
      match r with
      | c1 :: c2 :: c3 :: r2 =>
        let lo1 : Nat := if b = 240 then 144 else 128
        let hi1 : Nat := if b = 244 then 143 else 191
        if lo1 ≤ c1 ∧ c1 ≤ hi1 ∧ 128 ≤ c2 ∧ c2 ≤ 191 ∧ 128 ≤ c3 ∧ c3 ≤ 191 then
          match utf8Go f r2 with
          | some cs =>
            some (Char.ofNat
              ((((b - 240) * 64 + (c1 - 128)) * 64 + (c2 - 128)) * 64 + (c3 - 128)) :: cs)
          | none => none
        else none
      | _ => none
    else none

/-- Python `file_content.decode('utf-8')`; `none` models the raised
`UnicodeDecodeError`. -/
def utf8Decode (bs : List Nat) : Option (List Char) := utf8Go bs.length bs

/-- The fixed fallback medicine name. -/
def FALLBACK : List Char := "Paracetamol".toList

/-- Lines 104-114: use the decoded, stripped text as the medicine name when it
is non-empty (truthy) and shorter than 100 characters, otherwise fall back to
"Paracetamol"; a decode error also falls back. -/
def medicineName (fileContent : List Nat) : List Char :=
  match utf8Decode fileContent with
  | none => FALLBACK
  | some cs =>
    if !(pyStrip cs).isEmpty ∧ (pyStrip cs).length < 100 then pyStrip cs
    else FALLBACK

/-- Line 116: the user prompt built from the chosen medicine name. -/
def userPrompt (fileContent : List Nat) : List Char :=
  "Provide information about the medicine: ".toList ++ medicineName fileContent

/-! ## Specification-following definitions, for comparison with the code -/

/-- Follows the words of the specification sentence behind claim C2: a line
break existing immediately after the opening fence, i.e. the first character
after the leading run of backticks is a line break. -/
def lineBreakAfterFence (s : List Char) : Bool :=
  match s.dropWhile (fun c => c == BTICK) with
  | c :: _ => c == '\n'
  | [] => false

/-- Follows the words of claim C2: strip all fence characters, then discard
the first line only if a line break exists immediately after the opening
fence.  To be compared with `deFence`, which translates the code. -/
def deFenceClaim (s : List Char) : List Char :=
  if startsWithFence s then
    if lineBreakAfterFence s then afterFirstNL (stripBackticks s)
    else stripBackticks s
  else s

/-- The fenced reply used to separate `deFence` from `deFenceClaim`: a fenced
JSON object with a line break in the middle and none right after the fence. -/
def c2Input : List Char := "```\x7b\"a\": 1,\n\"b\": 2\x7d```".toList

/-! ## List-level helper lemmas -/

theorem head?_dropWhile_false (p : Char → Bool) (l : List Char) :
    ∀ c, (l.dropWhile p).head? = some c → p c = false := by
  induction l with
  | nil => intro c h; simp at h
  | cons a t ih =>
    intro c h
    rw [List.dropWhile_cons] at h
    by_cases ha : p a
    · rw [if_pos ha] at h; exact ih c h
    · rw [if_neg ha] at h
      simp at h
      rw [← h]
      exact Bool.of_not_eq_true ha

theorem dropWhile_getLast? (p : Char → Bool) (l : List Char)
    (h : l.dropWhile p ≠ []) : (l.dropWhile p).getLast? = l.getLast? := by
  induction l with
  | nil => simp at h
  | cons a t ih =>
    rw [List.dropWhile_cons] at h ⊢
    by_cases ha : p a
    · rw [if_pos ha] at h ⊢
      rw [ih h]
      have ht : t ≠ [] := by
        intro he
        rw [he] at h
        simp [List.dropWhile] at h
      cases t with
      | nil => exact absurd rfl ht
      | cons x xs => exact (List.getLast?_cons_cons).symm
    · rw [if_neg ha]

theorem dropWhile_eq_self_of_head (p : Char → Bool) (l : List Char)
    (h : ∀ c, l.head? = some c → p c = false) : l.dropWhile p = l := by
  cases l with
  | nil => rfl
  | cons a t =>
    rw [List.dropWhile_cons, if_neg]
    simp [h a rfl]

theorem rdropWhile_eq_reverse (p : Char → Bool) (l : List Char) :
    List.rdropWhile p l = (l.reverse.dropWhile p).reverse := by
  simp [List.rdropWhile]

theorem pyStripWhile_idem (p : Char → Bool) (s : List Char) :
    pyStripWhile p (pyStripWhile p s) = pyStripWhile p s := by
  unfold pyStripWhile
  have h1 : List.dropWhile p (List.rdropWhile p (List.dropWhile p s)) =
      List.rdropWhile p (List.dropWhile p s) := by
    apply dropWhile_eq_self_of_head
    intro c hc
    have hrev := rdropWhile_eq_reverse p (List.dropWhile p s)
    have hne : ((List.dropWhile p s).reverse.dropWhile p) ≠ [] := by
      intro hnil
      rw [hrev, hnil] at hc
      simp at hc
    have hgl : ((List.dropWhile p s).reverse.dropWhile p).getLast? =
        (List.dropWhile p s).reverse.getLast? := dropWhile_getLast? p _ hne
    have hhead : (List.rdropWhile p (List.dropWhile p s)).head? =
        (List.dropWhile p s).head? := by
      rw [hrev, List.head?_reverse, hgl, List.getLast?_reverse]
    rw [hhead] at hc
    exact head?_dropWhile_false p s c hc
  rw [h1, List.rdropWhile_idempotent]

theorem pyStrip_idem (s : List Char) : pyStrip (pyStrip s) = pyStrip s :=
  pyStripWhile_idem isPyWS s

theorem mem_of_mem_pyStripWhile (p : Char → Bool) (s : List Char) (c : Char)
    (h : c ∈ pyStripWhile p s) : c ∈ s := by
  unfold pyStripWhile at h
  rw [rdropWhile_eq_reverse, List.mem_reverse] at h
  have h2 := (List.dropWhile_sublist p).subset h
  rw [List.mem_reverse] at h2
  exact (List.dropWhile_sublist p).subset h2

theorem mem_of_mem_pyStrip (s : List Char) (c : Char) (h : c ∈ pyStrip s) :
    c ∈ s := mem_of_mem_pyStripWhile isPyWS s c h

theorem mem_of_mem_afterFirstNL (s : List Char) (c : Char)
    (h : c ∈ afterFirstNL s) : c ∈ s := by
  unfold afterFirstNL at h
  have h2 := (List.tail_sublist _).subset h
  exact (List.dropWhile_sublist _).subset h2

theorem mem_of_mem_deFence (s : List Char) (c : Char) (h : c ∈ deFence s) :
    c ∈ s := by
  unfold deFence at h
  by_cases hf : startsWithFence s
  · rw [if_pos hf] at h
    by_cases hn : containsNL (stripBackticks s)
    · rw [if_pos hn] at h
      exact mem_of_mem_pyStripWhile _ s c (mem_of_mem_afterFirstNL _ c h)
    · rw [if_neg hn] at h
      exact mem_of_mem_pyStripWhile _ s c h
  · rwa [if_neg hf] at h

/-! ## Properties of the index search and the candidate slice -/

theorem findIdxChar_eq_none_of_not_mem (c : Char) (s : List Char)
    (h : c ∉ s) : findIdxChar c s = none := by
  unfold findIdxChar
  rw [if_pos]
  rw [List.takeWhile_eq_self_iff.mpr]
  intro x hx
  simp only [bne_iff_ne, ne_eq]
  intro he
  exact h (he ▸ hx)

theorem rfindIdxChar_eq_none_of_not_mem (c : Char) (s : List Char)
    (h : c ∉ s) : rfindIdxChar c s = none := by
  unfold rfindIdxChar
  rw [findIdxChar_eq_none_of_not_mem]
  rw [List.mem_reverse]
  exact h

theorem drop_takeWhile_length (q : Char → Bool) (s : List Char) :
    s.drop (s.takeWhile q).length = s.dropWhile q := by
  nth_rewrite 2 [← List.takeWhile_append_dropWhile q s]
  rw [List.drop_left]

theorem findIdxChar_some_drop (c : Char) (s : List Char) (i : Nat)
    (h : findIdxChar c s = some i) : ∃ t, s.drop i = c :: t := by
  unfold findIdxChar at h
  by_cases hl : (s.takeWhile (fun x => x != c)).length = s.length
  · rw [if_pos hl] at h; exact absurd h (by simp)
  · rw [if_neg hl] at h
    have hi : i = (s.takeWhile (fun x => x != c)).length := by
      injection h with h2
      exact h2.symm
    subst hi
    rw [drop_takeWhile_length]
    have hne : s.dropWhile (fun x => x != c) ≠ [] := by
      intro hnil
      apply hl
      have := List.takeWhile_append_dropWhile (fun x => x != c) s
      rw [hnil, List.append_nil] at this
      rw [this]
    cases hd : s.dropWhile (fun x => x != c) with
    | nil => exact absurd hd hne
    | cons x xs =>
      have hx : ((s.dropWhile (fun x => x != c)).head? = some x) := by
        rw [hd]; rfl
      have := head?_dropWhile_false (fun x => x != c) s x hx
      have hxc : x = c := by simpa using this
      exact ⟨xs, by rw [hxc]⟩

theorem extractCandidate_pyStrip (s : List Char) :
    extractCandidate (pyStrip s) = extractCandidate s := by
  unfold extractCandidate
  rw [pyStrip_idem]

theorem extractCandidate_head (s : List Char) (cand : List Char)
    (h : extractCandidate s = some cand) : ∃ t, cand = LBRACE :: t := by
  unfold extractCandidate braceSlice at h
  cases hf : findIdxChar LBRACE (deFence (pyStrip s)) with
  | none => rw [hf] at h; exact absurd h (by simp)
  | some st =>
    cases hr : rfindIdxChar RBRACE (deFence (pyStrip s)) with
    | none => rw [hf, hr] at h; exact absurd h (by simp)
    | some en =>
      rw [hf, hr] at h
      dsimp only [] at h
      by_cases hlt : st < en
      · rw [if_pos hlt] at h
        obtain ⟨t0, ht0⟩ := findIdxChar_some_drop LBRACE _ st hf
        obtain ⟨k, hk⟩ : ∃ k, en + 1 - st = k + 1 := ⟨en - st, by omega⟩
        injection h with h2
        refine ⟨t0.take k, ?_⟩
        rw [← h2, ht0, hk, List.take_succ_cons]
      · rw [if_neg hlt] at h; exact absurd h (by simp)

/-! ## The parser returns an object on a brace-headed input -/

theorem skipWS_brace (t : List Char) : skipWS (LBRACE :: t) = LBRACE :: t := by
  unfold skipWS
  rw [List.dropWhile_cons, if_neg]
  simp [isJsonWS, BTICK, LBRACE]

theorem parseValue_brace_obj (f : Nat) (t : List Char) (v : Json)
    (rest : List Char) (h : parseValue (f + 1) (LBRACE :: t) = some (v, rest)) :
    ∃ kvs, v = Json.obj kvs := by
  rw [parseValue, if_pos rfl] at h
  cases hm : parseMembers0 f (skipWS t) with
  | none => rw [hm] at h; exact absurd h (by simp)
  | some pr =>
    rw [hm] at h
    cases pr with
    | mk ps r2 =>
      dsimp only [] at h
      injection h with h2
      injection h2 with h3 h4
      exact ⟨buildDict ps, h3.symm⟩

theorem json_loads_brace_obj (t : List Char) (v : Json)
    (h : json_loads (LBRACE :: t) = some v) : ∃ kvs, v = Json.obj kvs := by
  unfold json_loads at h
  rw [skipWS_brace] at h
  obtain ⟨f, hf⟩ : ∃ f, 4 * (LBRACE :: t).length + 8 = f + 1 :=
    ⟨4 * (LBRACE :: t).length + 7, by omega⟩
  rw [hf] at h
  cases hp : parseValue (f + 1) (LBRACE :: t) with
  | none => rw [hp] at h; exact absurd h (by simp)
  | some vr =>
    rw [hp] at h
    cases vr with
    | mk v2 rest =>
      obtain ⟨kvs, hkvs⟩ := parseValue_brace_obj f t v2 rest hp
      dsimp only [] at h
      by_cases hrest : skipWS rest = []
      · rw [if_pos hrest] at h
        injection h with h2
        exact ⟨kvs, by rw [← h2, hkvs]⟩
      · rw [if_neg hrest] at h
        exact absurd h (by simp)

/-! ## Inversion principles for `extract_json` and `normalize` -/

theorem extract_json_ok_some (s : List Char) (d : Json)
    (h : extract_json s = Except.ok (some d)) :
    ∃ cand, extractCandidate s = some cand ∧ json_loads cand = some d := by
  unfold extract_json at h
  cases hc : extractCandidate s with
  | none =>
    rw [hc] at h
    injection h with h2
    exact absurd h2 (by simp)
  | some cand =>
    rw [hc] at h
    dsimp only [] at h
    cases hj : json_loads cand with
    | none => rw [hj] at h; exact absurd h (by simp)
    | some v =>
      rw [hj] at h
      dsimp only [] at h
      injection h with h2
      injection h2 with h3
      exact ⟨cand, rfl, by rw [hj, h3]⟩

/-! ## Properties of the `setdefault` back-filling loop -/

theorem lookupKey_append_single (kvs : List (List Char × Json))
    (k k2 : List Char) (v2 : Json) :
    lookupKey (kvs ++ [(k2, v2)]) k =
      match lookupKey kvs k with
      | some v => some v
      | none => if k2 = k then some v2 else none := by
  induction kvs with
  | nil => rfl
  | cons p rest ih =>
    cases p with
    | mk k0 v0 =>
      by_cases h0 : k0 = k
      · simp [lookupKey, h0]
      · simp only [List.cons_append, lookupKey, if_neg h0]
        exact ih

theorem setdefault_preserves (kvs : List (List Char × Json))
    (k k2 : List Char) (v : Json) (h : lookupKey kvs k = some v) :
    lookupKey (setdefaultEmpty kvs k2) k = some v := by
  unfold setdefaultEmpty
  cases h2 : lookupKey kvs k2 with
  | some _ => exact h
  | none =>
    rw [lookupKey_append_single, h]

theorem setdefault_self_isSome (kvs : List (List Char × Json))
    (k : List Char) : (lookupKey (setdefaultEmpty kvs k) k).isSome = true := by
  unfold setdefaultEmpty
  cases h2 : lookupKey kvs k with
  | some v => rw [h2]; rfl
  | none =>
    rw [lookupKey_append_single, h2, if_pos rfl]
    rfl

theorem setdefault_missing (kvs : List (List Char × Json))
    (k k2 : List Char) (h : lookupKey kvs k = none) (hne : k2 ≠ k) :
    lookupKey (setdefaultEmpty kvs k2) k = none := by
  unfold setdefaultEmpty
  cases h2 : lookupKey kvs k2 with
  | some _ => exact h
  | none =>
    rw [lookupKey_append_single, h, if_neg hne]

theorem setdefault_fill (kvs : List (List Char × Json)) (k : List Char)
    (h : lookupKey kvs k = none) :
    lookupKey (setdefaultEmpty kvs k) k = some (Json.str []) := by
  unfold setdefaultEmpty
  rw [h, lookupKey_append_single, h, if_pos rfl]

theorem setdefault_append (kvs : List (List Char × Json)) (k : List Char) :
    ∃ extra, setdefaultEmpty kvs k = kvs ++ extra := by
  unfold setdefaultEmpty
  cases h2 : lookupKey kvs k with
  | some _ => exact ⟨[], by simp⟩
  | none => exact ⟨[(k, Json.str [])], rfl⟩

theorem foldl_setdefault_preserves (ks : List (List Char))
    (kvs : List (List Char × Json)) (k : List Char) (v : Json)
    (h : lookupKey kvs k = some v) :
    lookupKey (ks.foldl setdefaultEmpty kvs) k = some v := by
  induction ks generalizing kvs with
  | nil => exact h
  | cons k0 rest ih =>
    rw [List.foldl_cons]
    exact ih _ (setdefault_preserves kvs k k0 v h)

theorem foldl_setdefault_isSome (ks : List (List Char))
    (kvs : List (List Char × Json)) (k : List Char) (h : k ∈ ks) :
    (lookupKey (ks.foldl setdefaultEmpty kvs) k).isSome = true := by
  induction ks generalizing kvs with
  | nil => simp at h
  | cons k0 rest ih =>
    rw [List.foldl_cons]
    rcases List.mem_cons.mp h with h0 | h0
    · subst h0
      cases hv : lookupKey (setdefaultEmpty kvs k) k with
      | none =>
        have := setdefault_self_isSome kvs k
        rw [hv] at this
        exact absurd this (by simp)
      | some v =>
        rw [foldl_setdefault_preserves rest _ k v hv]
        rfl
    · exact ih _ h0

theorem foldl_setdefault_fill (ks : List (List Char))
    (kvs : List (List Char × Json)) (k : List Char) (h : k ∈ ks)
    (h2 : lookupKey kvs k = none) :
    lookupKey (ks.foldl setdefaultEmpty kvs) k = some (Json.str []) := by
  induction ks generalizing kvs with
  | nil => simp at h
  | cons k0 rest ih =>
    rw [List.foldl_cons]
    by_cases h0 : k0 = k
    · rw [h0]
      exact foldl_setdefault_preserves rest _ k _ (setdefault_fill kvs k h2)
    · rcases List.mem_cons.mp h with h1 | h1
      · exact absurd h1.symm h0
      · exact ih _ h1 (setdefault_missing kvs k k0 h2 h0)

theorem foldl_setdefault_append (ks : List (List Char))
    (kvs : List (List Char × Json)) :
    ∃ extra, ks.foldl setdefaultEmpty kvs = kvs ++ extra := by
  induction ks generalizing kvs with
  | nil => exact ⟨[], by simp⟩
  | cons k0 rest ih =>
    rw [List.foldl_cons]
    obtain ⟨e0, he0⟩ := setdefault_append kvs k0
    obtain ⟨e1, he1⟩ := ih (setdefaultEmpty kvs k0)
    exact ⟨e0 ++ e1, by rw [he1, he0, List.append_assoc]⟩

/-! ## Behaviour of `normalize` -/

theorem normalize_pyStrip (s : List Char) :
    normalize (pyStrip s) = normalize s := by
  unfold normalize extract_json
  rw [pyStrip_idem, extractCandidate_pyStrip]

theorem normalize_parsedFalse_raw (s : List Char) (r : List Char)
    (h : normalize s = Except.ok (NormResult.parsedFalse r)) : r = pyStrip s := by
  unfold normalize at h
  cases hd : (match extract_json (pyStrip s) with
              | Except.ok d => d
              | Except.error _ => none) with
  | none =>
    rw [hd] at h
    dsimp only [] at h
    injection h with h2
    injection h2 with h3
    exact h3.symm
  | some d =>
    rw [hd] at h
    dsimp only [] at h
    by_cases ht : pyTruthy d
    · rw [if_pos ht] at h
      cases d with
      | obj kvs => exact absurd h (by simp)
      | null => exact absurd h (by simp)
      | bool b => exact absurd h (by simp)
      | num lx => exact absurd h (by simp)
      | str cs => exact absurd h (by simp)
      | arr vs => exact absurd h (by simp)
    · rw [if_neg ht] at h
      injection h with h2
      injection h2 with h3
      exact h3.symm

theorem normalize_success (text cand : List Char) (kvs : List (List Char × Json))
    (hc : extractCandidate text = some cand)
    (hp : json_loads cand = some (Json.obj kvs)) (hne : kvs ≠ []) :
    normalize text = Except.ok (NormResult.parsedTrue (fillDefaults kvs)) := by
  unfold normalize extract_json
  rw [extractCandidate_pyStrip, hc]
  dsimp only []
  rw [hp]
  dsimp only []
  have htr : pyTruthy (Json.obj kvs) = true := by simp [pyTruthy, hne]
  rw [if_pos htr]

/-! ## The claims -/

/-- Claim C3: for every input text containing no opening brace or no closing
brace, the normalizer returns a `parsed:false` result whose `raw` field equals
the whitespace-trimmed input text. -/
theorem claim_C3 (text : List Char) (h : LBRACE ∉ text ∨ RBRACE ∉ text) :
    normalize text = Except.ok (NormResult.parsedFalse (pyStrip text)) := by
  have hcand : extractCandidate (pyStrip text) = none := by
    rw [extractCandidate_pyStrip]
    unfold extractCandidate braceSlice
    rcases h with h | h
    · rw [findIdxChar_eq_none_of_not_mem LBRACE _
        (fun hm => h (mem_of_mem_pyStrip _ _ (mem_of_mem_deFence _ _ hm)))]
    · rw [rfindIdxChar_eq_none_of_not_mem RBRACE _
        (fun hm => h (mem_of_mem_pyStrip _ _ (mem_of_mem_deFence _ _ hm)))]
      cases findIdxChar LBRACE (deFence (pyStrip text)) <;> rfl
  unfold normalize extract_json
  rw [hcand]

/-- Witness for claim C3 at the concrete input `"hello"`. -/
theorem claim_C3_witness :
    normalize ("hello".toList) =
      Except.ok (NormResult.parsedFalse (pyStrip ("hello".toList))) :=
  claim_C3 ("hello".toList) (Or.inl (by decide))

/-- Claim C6: the `/chat` handler relays an adapter reply unchanged as an
`answer` payload, converts an adapter exception into an `error` payload, and
never lets an exception escape (both cases are an HTTP-200 `Except.ok`). -/
theorem claim_C6 (adapter : Except (List Char) (List Char)) :
    chat_endpoint adapter = Except.ok
      (match adapter with
       | Except.ok t => ChatReply.answer t
       | Except.error e => ChatReply.error e) := by
  cases adapter <;> rfl

/-- Claim C7: normalization is idempotent on failures; re-normalizing the
`raw` field of a `parsed:false` result reproduces that result. -/
theorem claim_C7 (text r : List Char)
    (h : normalize text = Except.ok (NormResult.parsedFalse r)) :
    normalize r = Except.ok (NormResult.parsedFalse r) := by
  have hr : r = pyStrip text := normalize_parsedFalse_raw text r h
  subst hr
  rw [normalize_pyStrip]
  exact h

/-- Witness for claim C7 at the concrete input `"hello"`. -/
theorem claim_C7_witness :
    normalize ("hello".toList) =
      Except.ok (NormResult.parsedFalse ("hello".toList)) :=
  claim_C7 ("hello".toList) ("hello".toList) (by rfl)

/-- Claim C8: for every input text the normalization step terminates with a
tagged result and never raises to its caller (`Except.ok` in all cases; the
JSON-parsing exception is caught internally). -/
theorem claim_C8 (content : List Char) :
    ∃ res, normalize content = Except.ok res := by
  cases he : extract_json (pyStrip content) with
  | error e =>
    refine ⟨NormResult.parsedFalse (pyStrip content), ?_⟩
    unfold normalize
    rw [he]
  | ok d =>
    cases d with
    | none =>
      refine ⟨NormResult.parsedFalse (pyStrip content), ?_⟩
      unfold normalize
      rw [he]
    | some v =>
      obtain ⟨cand, hc, hj⟩ := extract_json_ok_some _ v he
      obtain ⟨t, ht⟩ := extractCandidate_head _ _ hc
      rw [ht] at hj
      obtain ⟨kvs, hkvs⟩ := json_loads_brace_obj t v hj
      by_cases htr : pyTruthy v
      · refine ⟨NormResult.parsedTrue (fillDefaults kvs), ?_⟩
        unfold normalize
        rw [he]
        dsimp only []
        rw [if_pos htr, hkvs]
      · refine ⟨NormResult.parsedFalse (pyStrip content), ?_⟩
        unfold normalize
        rw [he]
        dsimp only []
        rw [if_neg htr]

/-- Counterexample to claim C1 as stated: the input consisting of the two
braces alone has a brace-delimited substring that parses successfully as JSON
(the empty object), yet the normalizer returns `parsed:false`, because the
code's `if not data:` treats the empty Python dict as a failure. -/
theorem claim_C1_counterexample :
    extractCandidate [LBRACE, RBRACE] = some [LBRACE, RBRACE] ∧
    json_loads [LBRACE, RBRACE] = some (Json.obj []) ∧
    normalize [LBRACE, RBRACE] =
      Except.ok (NormResult.parsedFalse [LBRACE, RBRACE]) :=
  ⟨by rfl, by rfl, by rfl⟩

/-- Claim C1 as amended: for every input whose extracted brace-delimited
substring parses as a NON-EMPTY JSON object, the normalizer returns
`parsed:true` data containing all 12 expected fields, every missing field
back-filled with the empty string (an empty parsed object yields
`parsed:false` instead). -/
theorem claim_C1_amended (text cand : List Char) (kvs : List (List Char × Json))
    (hc : extractCandidate text = some cand)
    (hp : json_loads cand = some (Json.obj kvs))
    (hne : kvs ≠ []) :
    normalize text = Except.ok (NormResult.parsedTrue (fillDefaults kvs)) ∧
    ∀ k, k ∈ EXPECTED_KEYS →
      (lookupKey (fillDefaults kvs) k).isSome = true ∧
      (lookupKey kvs k = none →
        lookupKey (fillDefaults kvs) k = some (Json.str [])) := by
  refine ⟨normalize_success text cand kvs hc hp hne, ?_⟩
  intro k hk
  exact ⟨foldl_setdefault_isSome EXPECTED_KEYS kvs k hk,
         fun h2 => foldl_setdefault_fill EXPECTED_KEYS kvs k hk h2⟩

/-- Witness for the amended claim C1 at a concrete reply carrying only the
`name` field: the result is `parsed:true` and the missing `generic` field is
present with the empty string. -/
theorem claim_C1_witness :
    normalize ("\x7b\"name\": \"X\"\x7d".toList) =
      Except.ok (NormResult.parsedTrue
        (fillDefaults [("name".toList, Json.str ['X'])])) ∧
    lookupKey (fillDefaults [("name".toList, Json.str ['X'])])
        ("generic".toList) = some (Json.str []) := by
  have h := claim_C1_amended ("\x7b\"name\": \"X\"\x7d".toList)
      ("\x7b\"name\": \"X\"\x7d".toList) [("name".toList, Json.str ['X'])]
      (by rfl) (by rfl) (by simp)
  exact ⟨h.1, (h.2 ("generic".toList) (by decide)).2 (by rfl)⟩

/-- Claim C9: extra fields outside the 12 expected ones survive back-filling
with their original values; the defaults are appended after the parsed
bindings and no binding is removed. -/
theorem claim_C9 (text cand : List Char) (kvs : List (List Char × Json))
    (hc : extractCandidate text = some cand)
    (hp : json_loads cand = some (Json.obj kvs))
    (hne : kvs ≠ []) :
    ∃ extra, normalize text = Except.ok (NormResult.parsedTrue (kvs ++ extra)) ∧
      ∀ k v, lookupKey kvs k = some v → lookupKey (kvs ++ extra) k = some v := by
  obtain ⟨extra, he⟩ := foldl_setdefault_append EXPECTED_KEYS kvs
  have hfill : fillDefaults kvs = kvs ++ extra := he
  refine ⟨extra, ?_, ?_⟩
  · rw [normalize_success text cand kvs hc hp hne, hfill]
  · intro k v hv
    have h2 := foldl_setdefault_preserves EXPECTED_KEYS kvs k v hv
    rwa [he] at h2

/-- Witness for claim C9 at a concrete reply carrying only the unexpected
field `potency`. -/
theorem claim_C9_witness :
    ∃ extra,
      normalize ("\x7b\"potency\": 7\x7d".toList) =
        Except.ok (NormResult.parsedTrue
          ([("potency".toList, Json.num ['7'])] ++ extra)) ∧
      ∀ k v, lookupKey [("potency".toList, Json.num ['7'])] k = some v →
        lookupKey ([("potency".toList, Json.num ['7'])] ++ extra) k = some v :=
  claim_C9 ("\x7b\"potency\": 7\x7d".toList) ("\x7b\"potency\": 7\x7d".toList)
    [("potency".toList, Json.num ['7'])] (by rfl) (by rfl) (by simp)

/-- Claim C10: an expected field present in the parsed object keeps its
original value of whatever JSON type in the `parsed:true` data; only absent
fields receive the empty-string default, so the all-strings typing of
`MedicineRecord` is not enforced. -/
theorem claim_C10 (text cand : List Char) (kvs : List (List Char × Json))
    (k : List Char) (v : Json)
    (hc : extractCandidate text = some cand)
    (hp : json_loads cand = some (Json.obj kvs))
    (hne : kvs ≠ [])
    (_hk : k ∈ EXPECTED_KEYS)
    (hv : lookupKey kvs k = some v) :
    normalize text = Except.ok (NormResult.parsedTrue (fillDefaults kvs)) ∧
    lookupKey (fillDefaults kvs) k = some v :=
  ⟨normalize_success text cand kvs hc hp hne,
   foldl_setdefault_preserves EXPECTED_KEYS kvs k v hv⟩

/-- Witness for claim C10 at a concrete reply whose `name` field is JSON
`null`: the non-string value is kept as-is. -/
theorem claim_C10_witness :
    normalize ("\x7b\"name\": null\x7d".toList) =
      Except.ok (NormResult.parsedTrue
        (fillDefaults [("name".toList, Json.null)])) ∧
    lookupKey (fillDefaults [("name".toList, Json.null)]) ("name".toList) =
      some Json.null :=
  claim_C10 ("\x7b\"name\": null\x7d".toList) ("\x7b\"name\": null\x7d".toList)
    [("name".toList, Json.null)] ("name".toList) Json.null
    (by rfl) (by rfl) (by simp) (by decide) (by rfl)

/-- Counterexample to claim C2 as stated: `c2Input` is a fenced JSON object
with a line break in the middle and none immediately after the opening fence,
so per the claim the first line would be kept and the object extracted intact;
the code instead discards everything through that line break (its check is
`"\n" in s`, anywhere), and normalization fails. -/
theorem claim_C2_counterexample :
    pyStrip c2Input = c2Input ∧
    startsWithFence c2Input = true ∧
    lineBreakAfterFence c2Input = false ∧
    deFenceClaim c2Input = stripBackticks c2Input ∧
    deFence c2Input ≠ deFenceClaim c2Input ∧
    json_loads (deFenceClaim c2Input) =
      some (Json.obj [("a".toList, Json.num ['1']),
                      ("b".toList, Json.num ['2'])]) ∧
    normalize c2Input = Except.ok (NormResult.parsedFalse c2Input) :=
  ⟨by rfl, by rfl, by rfl, by rfl, by decide, by rfl, by rfl⟩

/-- Claim C2 as amended: for every input whose trimmed text begins with a
fence marker, all fence characters are stripped and then the first line is
discarded if a line break exists ANYWHERE in the de-fenced text (not only
immediately after the opening fence); a fenced JSON object with no newline
anywhere between the fences is still extracted intact. -/
theorem claim_C2_amended (s : List Char)
    (h : startsWithFence (pyStrip s) = true) :
    (containsNL (stripBackticks (pyStrip s)) = true →
      extractCandidate s = braceSlice (afterFirstNL (stripBackticks (pyStrip s)))) ∧
    (containsNL (stripBackticks (pyStrip s)) = false →
      extractCandidate s = braceSlice (stripBackticks (pyStrip s))) := by
  unfold extractCandidate deFence
  constructor
  · intro hn
    rw [if_pos (by rw [h]), if_pos (by rw [hn])]
  · intro hn
    rw [if_pos (by rw [h]), if_neg (by rw [hn]; simp)]

/-- Witness for the amended claim C2 at a fenced JSON object with no language
tag and no newline: the fenced body is used intact. -/
theorem claim_C2_witness :
    extractCandidate ("```\x7b\"name\": \"X\"\x7d```".toList) =
      braceSlice (stripBackticks (pyStrip ("```\x7b\"name\": \"X\"\x7d```".toList))) :=
  (claim_C2_amended ("```\x7b\"name\": \"X\"\x7d```".toList) (by rfl)).2 (by rfl)

/-- Claim C4: candidate extraction fails exactly when, in the de-fenced text,
the first opening brace is absent, or the last closing brace is absent, or the
index of the last closing brace does not come after the index of the first
opening brace; otherwise the slice from the first opening brace through the
last closing brace is exactly the string submitted to the JSON parser. -/
theorem claim_C4 (s : List Char) :
    (extractCandidate s = none ↔
      findIdxChar LBRACE (deFence (pyStrip s)) = none ∨
      rfindIdxChar RBRACE (deFence (pyStrip s)) = none ∨
      ∃ i j, findIdxChar LBRACE (deFence (pyStrip s)) = some i ∧
             rfindIdxChar RBRACE (deFence (pyStrip s)) = some j ∧ ¬ i < j) ∧
    (∀ i j, findIdxChar LBRACE (deFence (pyStrip s)) = some i →
            rfindIdxChar RBRACE (deFence (pyStrip s)) = some j → i < j →
      extractCandidate s =
        some (((deFence (pyStrip s)).drop i).take (j + 1 - i)) ∧
      extract_json s =
        (match json_loads (((deFence (pyStrip s)).drop i).take (j + 1 - i)) with
         | some v => Except.ok (some v)
         | none => Except.error ())) := by
  constructor
  · unfold extractCandidate braceSlice
    cases hf : findIdxChar LBRACE (deFence (pyStrip s)) with
    | none => simp
    | some i =>
      cases hr : rfindIdxChar RBRACE (deFence (pyStrip s)) with
      | none => simp
      | some j =>
        dsimp only []
        by_cases hij : i < j
        · rw [if_pos hij]
          simp only [reduceCtorEq, false_iff]
          rintro (h | h | ⟨i2, j2, h1, h2, h3⟩)
          · exact absurd h (by simp)
          · exact absurd h (by simp)
          · injection h1 with h1
            injection h2 with h2
            omega
        · rw [if_neg hij]
          constructor
          · intro _
            exact Or.inr (Or.inr ⟨i, j, rfl, rfl, hij⟩)
          · intro _
            rfl
  · intro i j hf hr hij
    have hcand : extractCandidate s =
        some (((deFence (pyStrip s)).drop i).take (j + 1 - i)) := by
      unfold extractCandidate braceSlice
      rw [hf, hr]
      dsimp only []
      rw [if_pos hij]
    refine ⟨hcand, ?_⟩
    unfold extract_json
    rw [hcand]

/-- Witness for claim C4 at a reply with prose around the object: the first
opening brace is at index 1, the last closing brace at index 8, and the slice
between them is submitted to the parser. -/
theorem claim_C4_witness :
    extractCandidate ("x\x7b\"a\": 1\x7dy".toList) =
      some (((deFence (pyStrip ("x\x7b\"a\": 1\x7dy".toList))).drop 1).take
        (8 + 1 - 1)) ∧
    extract_json ("x\x7b\"a\": 1\x7dy".toList) =
      (match json_loads (((deFence (pyStrip ("x\x7b\"a\": 1\x7dy".toList))).drop
          1).take (8 + 1 - 1)) with
       | some v => Except.ok (some v)
       | none => Except.error ()) :=
  (claim_C4 ("x\x7b\"a\": 1\x7dy".toList)).2 1 8 (by rfl) (by rfl) (by decide)

/-- Counterexample to claim C5 as stated: the empty upload decodes as UTF-8 to
a stripped text of fewer than 100 characters (the empty string), yet that text
is not used as the medicine name; the code requires a truthy (non-empty)
decoded text and substitutes the fallback. -/
theorem claim_C5_counterexample :
    utf8Decode [] = some [] ∧
    pyStrip [] = [] ∧
    ([] : List Char).length < 100 ∧
    medicineName [] = FALLBACK ∧
    FALLBACK ≠ ([] : List Char) :=
  ⟨by rfl, by rfl, by decide, by rfl, by decide⟩

/-- Claim C5 as amended: an upload whose bytes decode as UTF-8 to a NON-EMPTY
stripped text of fewer than 100 characters supplies that text as the medicine
name of the user prompt; a decode failure, an empty stripped text or one of
100 or more characters silently falls back to "Paracetamol", and no error is
reported for unreadable content. -/
theorem claim_C5_amended (bs : List Nat) :
    (∀ cs, utf8Decode bs = some cs → pyStrip cs ≠ [] →
      (pyStrip cs).length < 100 →
      medicineName bs = pyStrip cs ∧
      userPrompt bs =
        "Provide information about the medicine: ".toList ++ pyStrip cs) ∧
    (utf8Decode bs = none → medicineName bs = FALLBACK) ∧
    (∀ cs, utf8Decode bs = some cs →
      (pyStrip cs = [] ∨ ¬ (pyStrip cs).length < 100) →
      medicineName bs = FALLBACK) := by
  refine ⟨?_, ?_, ?_⟩
  · intro cs hdec hne hlen
    have hname : medicineName bs = pyStrip cs := by
      unfold medicineName
      rw [hdec]
      dsimp only []
      rw [if_pos]
      constructor
      · simp [hne]
      · exact hlen
    exact ⟨hname, by unfold userPrompt; rw [hname]⟩
  · intro hdec
    unfold medicineName
    rw [hdec]
  · intro cs hdec hbad
    unfold medicineName
    rw [hdec]
    dsimp only []
    rw [if_neg]
    rcases hbad with hb | hb
    · intro hcontra
      rw [List.isEmpty_iff.mpr hb] at hcontra
      exact absurd hcontra.1 (by simp)
    · intro hcontra
      exact hb hcontra.2

/-- Witness for the amended claim C5: the bytes of "Aspirin" decode to a short
non-empty name that is used verbatim, and the empty upload falls back. -/
theorem claim_C5_witness :
    medicineName [65, 115, 112, 105, 114, 105, 110] =
      pyStrip ("Aspirin".toList) ∧
    medicineName [] = FALLBACK := by
  constructor
  · exact ((claim_C5_amended [65, 115, 112, 105, 114, 105, 110]).1
      ("Aspirin".toList) (by rfl) (by decide) (by decide)).1
  · exact (claim_C5_amended []).2.2 [] (by rfl) (Or.inl (by rfl))

end HospitalAI
